import Mathlib

/-!
# Crust firmware: sunxi CCU clock tree and the sun50i device registry

A shallow embedding of `drivers/clock/sunxi-ccu.h` (the clock descriptor) and of
`platform/sun50i/devices.c` (the static device and clock tables), together
with the clock engine that operates on those descriptors.  The engine
(`sunxi-ccu.c`), the bitfield helpers (`bitfield.h`), the generic clock
header (`clock.h`) and the platform constant headers are not among the
sources; what is needed of them is either taken as a parameter
(`sun50i_consts`) or modelled from the specification, and each such
definition says so in its doc comment.
-/

namespace Crust

/-! ## Bitfield codec -/

/-- Modelled from the spec: `bitfield_t` of the missing `bitfield.h`, a pair
(bit offset, width).  A zero-initialised field (width 0) is an absent field. -/
structure bitfield_t where
  offset : Nat
  width : Nat
deriving DecidableEq, Repr

/-- Modelled from the spec: the missing `BITFIELD(offset, width)` constructor
macro. -/
def BITFIELD (offset width : Nat) : bitfield_t := ⟨offset, width⟩

/-- The zero-initialised bitfield of a member left out of an initialiser. -/
def BITFIELD_ZERO : bitfield_t := ⟨0, 0⟩

namespace Bitfield

/-- Modelled from the spec: `extract(word, field)`, the `width`-bit unsigned
value found at `offset` in `word`. -/
def extract (word : Nat) (f : bitfield_t) : Nat :=
  (word / 2 ^ f.offset) % 2 ^ f.width

/-- Modelled from the spec: `insert(word, field, value)`, the word with bits
`[offset, offset + width)` replaced by `value`.  The value is deliberately not
masked: the old field contents are cleared and `value`, shifted to the field
offset, is added, so an oversized value spills into the bits above. -/
def insert (word : Nat) (f : bitfield_t) (value : Nat) : Nat :=
  word - extract word f * 2 ^ f.offset + value * 2 ^ f.offset

/-- Two bit ranges share no bit position. -/
def disjoint (f g : bitfield_t) : Prop :=
  f.offset + f.width ≤ g.offset ∨ g.offset + g.width ≤ f.offset

instance (f g : bitfield_t) : Decidable (disjoint f g) := by
  unfold disjoint; infer_instance

end Bitfield

/-- Modelled from the spec: the missing `BITMAP_INDEX(word, bit)` macro, the
index of bit `bit` of the 32-bit word number `word` of a device. -/
def BITMAP_INDEX (word bit : Nat) : Nat := 32 * word + bit

/-- Byte offset of the register word holding the bit with the given bitmap
index. -/
def bitmap_reg (index : Nat) : Nat := 4 * (index / 32)

/-- Position inside its register word of the bit with the given bitmap
index. -/
def bitmap_bit (index : Nat) : Nat := index % 32

/-! ## Clock descriptors -/

/-- Modelled from the spec: the clock flags of the missing `clock.h`. -/
inductive clk_flag
  | CLK_FIXED
  | CLK_CRITICAL
deriving DecidableEq, Repr

open clk_flag

/-- Modelled from the spec: `struct clock_info` of the missing `clock.h`
(name, flags, optional `max_rate` with 0 for unbounded, and the rate of a
fixed clock). -/
structure clock_info where
  name : String
  max_rate : Nat := 0
  fixed_rate : Nat := 0
  flags : List clk_flag := []
deriving DecidableEq, Repr

/-- Modelled from the spec: `struct clock_handle` of the missing `clock.h`, a
reference to clock `id` of provider device `dev`, with the pre-divider field
`vdiv` applied only when this parent is selected. -/
structure clock_handle (D I : Type) where
  dev : D
  id : I
  vdiv : bitfield_t := BITFIELD_ZERO
deriving DecidableEq, Repr

/-- The clock descriptor `struct sunxi_ccu_clock`.  `parents` holds one slot
per mux value; a zero-filled slot (null `dev`) is `none`.  `gate` and `reset`
are bitmap indices into the CCU, zero for none; `reg` is the offset of the
mux/factor register. -/
structure sunxi_ccu_clock (D I : Type) where
  info : clock_info
  parents : List (Option (clock_handle D I)) := []
  gate : Nat := 0
  reset : Nat := 0
  reg : Nat := 0
  mux : bitfield_t := BITFIELD_ZERO
  m : bitfield_t := BITFIELD_ZERO
  p : bitfield_t := BITFIELD_ZERO
deriving DecidableEq, Repr

/-- Modelled from the spec: the missing `FIXED_CLOCK(name, rate, flags)`
macro, a clock with a constant rate, the FIXED flag and no control bits. -/
def FIXED_CLOCK {D I : Type} (n : String) (r : Nat) (f : List clk_flag) :
    sunxi_ccu_clock D I :=
  { info := { name := n, fixed_rate := r, flags := f ++ [CLK_FIXED] } }

/-- Modelled from the spec: the missing `CLOCK_PARENTS(n) { ... }` macro, an
array of `n` parent handles of which the listed ones are initialised and the
rest zero-filled. -/
def CLOCK_PARENTS {D I : Type} (n : Nat) (hs : List (clock_handle D I)) :
    List (Option (clock_handle D I)) :=
  hs.map some ++ List.replicate (n - hs.length) none

/-- Modelled from the spec: the missing `CLOCK_PARENT(dev, id)` macro, the
single parent of a clock without a mux. -/
def CLOCK_PARENT {D I : Type} (d : D) (i : I) : List (Option (clock_handle D I)) :=
  [some { dev := d, id := i }]

/-- Modelled from the spec: the three clock variants of the clock node
abstraction. -/
inductive clock_variant
  | Fixed
  | GateOnly
  | MuxDivider
deriving DecidableEq, Repr

/-- Modelled from the spec: which variant a descriptor is.  A node with the
FIXED flag is a fixed clock; a node without mux, linear and exponential
divider fields is gate-only; any other node is a mux-divider. -/
def variant {D I : Type} (c : sunxi_ccu_clock D I) : clock_variant :=
  if CLK_FIXED ∈ c.info.flags then clock_variant.Fixed
  else if c.mux.width = 0 ∧ c.m.width = 0 ∧ c.p.width = 0 then clock_variant.GateOnly
  else clock_variant.MuxDivider

/-- Modelled from the spec: the error kinds of the clock engine.
`LookupFailed` is the failed resolution of a (device, clock index) pair or of a
null parent slot. -/
inductive clock_error
  | Unsupported
  | Unreachable
  | CriticalDisableRejected
  | ConfigurationCycle
  | LookupFailed
deriving DecidableEq, Repr

instance {ε α : Type} [DecidableEq ε] [DecidableEq α] : DecidableEq (Except ε α) := fun a b =>
  match a, b with
  | .ok x, .ok y =>
    if h : x = y then isTrue (by rw [h]) else isFalse (fun e => h (by cases e; rfl))
  | .error x, .error y =>
    if h : x = y then isTrue (by rw [h]) else isFalse (fun e => h (by cases e; rfl))
  | .ok _, .error _ => isFalse (fun e => by cases e)
  | .error _, .ok _ => isFalse (fun e => by cases e)

/-- Modelled from the spec: the lookup operation resolving a (device, clock
index) pair against the static registry. -/
abbrev Registry (D I : Type) := D → I → Option (sunxi_ccu_clock D I)

/-! ## Register file and runtime state -/

/-- The register file: device and register byte offset to 32-bit word. -/
abbrev Regs (D : Type) := D → Nat → Nat

/-- Modelled from the spec: the mutable runtime state, that is the hardware
registers, the per-clock `enable_refcount`, and a trace of the register writes
performed (device, byte offset, word), most recent first. -/
structure State (D I : Type) where
  regs : Regs D
  refcount : D → I → Nat
  writes : List (D × Nat × Nat)

/-- Modelled from the spec: the register shim `write(device, reg_offset,
word)` on a 32-bit register. -/
def write {D I : Type} [DecidableEq D] (st : State D I) (d : D) (off word : Nat) :
    State D I :=
  { st with
    regs := fun d' off' => if d' = d ∧ off' = off then word % 2 ^ 32 else st.regs d' off'
    writes := (d, off, word % 2 ^ 32) :: st.writes }

/-! ## Clock engine -/

section engine

variable {D I : Type} [DecidableEq D]

/-- Modelled from the spec: `get_rate`.  A fixed clock returns its fixed
rate; a gate-only clock passes its single parent rate through; a mux-divider
reads the mux field to find the active parent, queries it recursively, applies
that parent's `vdiv` pre-divider (linear encoding, raw + 1, which is 1 for an
absent field) and computes `parent_rate / (m_raw + 1) / 2 ^ p_raw`.  The
recursion depth is bounded; exhausting the bound is `ConfigurationCycle`. -/
def get_rate (R : Registry D I) : Nat → Regs D → D → I → Except clock_error Nat
  | 0, _, _, _ => .error .ConfigurationCycle
  | depth + 1, regs, d, i =>
    match R d i with
    | none => .error .LookupFailed
    | some c =>
      match variant c with
      | .Fixed => .ok c.info.fixed_rate
      | .GateOnly =>
        match c.parents.getD 0 none with
        | none => .error .LookupFailed
        | some h => get_rate R depth regs h.dev h.id
      | .MuxDivider =>
        let word := regs d c.reg
        match c.parents.getD (Bitfield.extract word c.mux) none with
        | none => .error .LookupFailed
        | some h =>
          match get_rate R depth regs h.dev h.id with
          | .error e => .error e
          | .ok parent_rate =>
            .ok (parent_rate / (Bitfield.extract word h.vdiv + 1)
                  / (Bitfield.extract word c.m + 1) / 2 ^ Bitfield.extract word c.p)

/-- A parent and divider combination considered by `set_rate`, with the rate
it achieves. -/
structure candidate where
  parent : Nat
  m : Nat
  p : Nat
  rate : Nat
deriving DecidableEq, Repr

/-- Modelled from the spec: the divider combinations of one parent, the
exponential divider outermost and both in increasing raw value, without those
exceeding a non-zero `max_rate`. -/
def divider_candidates (c : sunxi_ccu_clock D I) (idx parent_rate : Nat) : List candidate :=
  (List.range (2 ^ c.p.width)).flatMap fun p =>
    (List.range (2 ^ c.m.width)).filterMap fun m =>
      let r := parent_rate / (m + 1) / 2 ^ p
      if c.info.max_rate ≠ 0 ∧ c.info.max_rate < r then none
      else some { parent := idx, m := m, p := p, rate := r }

/-- Modelled from the spec: all candidates of a mux-divider node, parents in
registry order (one per mux value; a null slot or a parent whose rate cannot
be queried contributes nothing). -/
def candidates (R : Registry D I) (depth : Nat) (regs : Regs D) (d : D)
    (c : sunxi_ccu_clock D I) : List candidate :=
  (List.range (2 ^ c.mux.width)).flatMap fun idx =>
    match c.parents.getD idx none with
    | none => []
    | some h =>
      match get_rate R depth regs h.dev h.id with
      | .error _ => []
      | .ok parent_rate =>
        divider_candidates c idx (parent_rate / (Bitfield.extract (regs d c.reg) h.vdiv + 1))

/-- The error `|achieved − target|` of a rate. -/
def rate_error (target r : Nat) : Nat :=
  if r ≤ target then target - r else r - target

/-- One step of best-candidate tracking: a later candidate replaces the best so
far only when its error is strictly smaller, so ties go to the earlier one. -/
def better (target : Nat) (best : Option candidate) (x : candidate) : Option candidate :=
  match best with
  | none => some x
  | some b => if rate_error target x.rate < rate_error target b.rate then some x else some b

/-- The candidate minimising the error, earliest first among ties. -/
def best_candidate (target : Nat) (cs : List candidate) : Option candidate :=
  cs.foldl (better target) none

/-- The register word committing a candidate: mux, then linear, then
exponential divider field, all in the node register. -/
def commit_word (c : sunxi_ccu_clock D I) (word : Nat) (b : candidate) : Nat :=
  Bitfield.insert (Bitfield.insert (Bitfield.insert word c.mux b.parent) c.m b.m) c.p b.p

/-- Modelled from the spec: `set_rate(target)`.  A fixed clock fails with
`Unsupported`; a gate-only clock fails with `Unsupported` unless the target
equals its current rate, and, `max_rate` being the upper bound of the node in
the data model, also when that rate exceeds a non-zero `max_rate`; a
mux-divider searches its candidates, commits the best one in one register
write and returns the achieved rate, or fails with `Unreachable` when there is
no candidate. -/
def set_rate (R : Registry D I) (depth : Nat) (st : State D I) (d : D) (i : I)
    (target : Nat) : Except clock_error Nat × State D I :=
  match depth with
  | 0 => (.error .ConfigurationCycle, st)
  | depth + 1 =>
    match R d i with
    | none => (.error .LookupFailed, st)
    | some c =>
      match variant c with
      | .Fixed => (.error .Unsupported, st)
      | .GateOnly =>
        match get_rate R (depth + 1) st.regs d i with
        | .error e => (.error e, st)
        | .ok current =>
          if target = current ∧ ¬ (c.info.max_rate ≠ 0 ∧ c.info.max_rate < current) then
            (.ok current, st)
          else (.error .Unsupported, st)
      | .MuxDivider =>
        match best_candidate target (candidates R depth st.regs d c) with
        | none => (.error .Unreachable, st)
        | some b => (.ok b.rate, write st d c.reg (commit_word c (st.regs d c.reg) b))

/-- Modelled from the spec: clearing one bit of the CCU bitmap through the
register shim (read, modify, write). -/
def bitmap_clear (st : State D I) (d : D) (index : Nat) : State D I :=
  let word := st.regs d (bitmap_reg index)
  write st d (bitmap_reg index) (Bitfield.insert word ⟨bitmap_bit index, 1⟩ 0)

/-- Modelled from the spec: setting one bit of the CCU bitmap through the
register shim. -/
def bitmap_set (st : State D I) (d : D) (index : Nat) : State D I :=
  let word := st.regs d (bitmap_reg index)
  write st d (bitmap_reg index) (Bitfield.insert word ⟨bitmap_bit index, 1⟩ 1)

/-- The state with the enable reference count of one clock replaced. -/
def set_refcount [DecidableEq I] (st : State D I) (d : D) (i : I) (n : Nat) : State D I :=
  { st with refcount := fun d' i' => if d' = d ∧ i' = i then n else st.refcount d' i' }

/-- The parent slot a node currently selects: the one indexed by the mux field
(slot 0 when the mux is absent). -/
def selected_parent (c : sunxi_ccu_clock D I) (word : Nat) : Option (clock_handle D I) :=
  c.parents.getD (Bitfield.extract word c.mux) none

/-- Modelled from the spec: `enable`.  A fixed clock is a no-op.  Otherwise the
reference count is incremented, and on the transition from 0 to 1 the selected
parent is enabled first, then the gate bit is set, then the reset bit is
cleared (each only when present). -/
def enable [DecidableEq I] (R : Registry D I) :
    Nat → State D I → D → I → Except clock_error Unit × State D I
  | 0, st, _, _ => (.error .ConfigurationCycle, st)
  | depth + 1, st, d, i =>
    match R d i with
    | none => (.error .LookupFailed, st)
    | some c =>
      match variant c with
      | .Fixed => (.ok (), st)
      | _ =>
        if st.refcount d i ≠ 0 then (.ok (), set_refcount st d i (st.refcount d i + 1))
        else
          match selected_parent c (st.regs d c.reg) with
          | none => (.error .LookupFailed, st)
          | some h =>
            match enable R depth st h.dev h.id with
            | (.error e, st1) => (.error e, st1)
            | (.ok _, st1) =>
              let st2 := set_refcount st1 d i 1
              let st3 := if c.gate ≠ 0 then bitmap_set st2 d c.gate else st2
              let st4 := if c.reset ≠ 0 then bitmap_clear st3 d c.reset else st3
              (.ok (), st4)

/-- Modelled from the spec: `disable`.  A CRITICAL node whose count would reach
zero is rejected with `CriticalDisableRejected` before anything else happens.
Otherwise a fixed clock is a no-op; any other node has its reference count
decremented (a count already at zero stays there), and on the transition from
1 to 0 the reset bit is asserted first, then the gate bit is cleared (each only
when present).  The parent is never disabled. -/
def disable [DecidableEq I] (R : Registry D I) (st : State D I) (d : D) (i : I) :
    Except clock_error Unit × State D I :=
  match R d i with
  | none => (.error .LookupFailed, st)
  | some c =>
    if CLK_CRITICAL ∈ c.info.flags ∧ st.refcount d i = 1 then
      (.error .CriticalDisableRejected, st)
    else
      match variant c with
      | .Fixed => (.ok (), st)
      | _ =>
        if st.refcount d i = 0 then (.ok (), st)
        else if st.refcount d i = 1 then
          let st1 := set_refcount st d i 0
          let st2 := if c.reset ≠ 0 then bitmap_set st1 d c.reset else st1
          let st3 := if c.gate ≠ 0 then bitmap_clear st2 d c.gate else st2
          (.ok (), st3)
        else (.ok (), set_refcount st d i (st.refcount d i - 1))

/-- The non-null parent handles of a node, in slot order. -/
def parent_handles (c : sunxi_ccu_clock D I) : List (clock_handle D I) :=
  c.parents.filterMap id

/-- Every bitfield a descriptor declares: its mux, linear and exponential
divider fields and the `vdiv` field of each parent. -/
def all_bitfields (c : sunxi_ccu_clock D I) : List bitfield_t :=
  [c.mux, c.m, c.p] ++ (parent_handles c).map (fun h => h.vdiv)

/-- The bit ranges of the node register that belong to a descriptor: its
bitfields and, when the gate bit lies in the register word at `reg`, that
bit. -/
def control_ranges (c : sunxi_ccu_clock D I) : List bitfield_t :=
  all_bitfields c ++
    (if c.gate ≠ 0 ∧ bitmap_reg c.gate = c.reg then [⟨bitmap_bit c.gate, 1⟩] else [])

/-- A register layout on which committed fields can be read back: every field
lies inside the 32-bit word, the mux and the two divider fields do not overlap
one another, and no parent `vdiv` field overlaps any of them. -/
def layout_ok (c : sunxi_ccu_clock D I) : Prop :=
  (∀ f ∈ all_bitfields c, f.offset + f.width ≤ 32) ∧
  Bitfield.disjoint c.mux c.m ∧ Bitfield.disjoint c.mux c.p ∧ Bitfield.disjoint c.m c.p ∧
  ∀ h ∈ parent_handles c,
    Bitfield.disjoint c.mux h.vdiv ∧ Bitfield.disjoint c.m h.vdiv ∧
      Bitfield.disjoint c.p h.vdiv

instance (c : sunxi_ccu_clock D I) : Decidable (layout_ok c) := by
  unfold layout_ok; infer_instance

end engine

/-! ## A two-parent example node -/

/-- A registry with a fixed 24 MHz clock (index 0), a fixed 600 MHz clock
(index 1) and the given node (index 2). -/
def two_parent_registry (node : sunxi_ccu_clock Unit Nat) : Registry Unit Nat
  | _, 0 => some (FIXED_CLOCK "osc24m" 24000000 [])
  | _, 1 => some (FIXED_CLOCK "pll_periph0" 600000000 [])
  | _, 2 => some node
  | _, _ => none

/-- A mux-divider with the register layout of `r_cir_mod` (2-bit mux, 4-bit
linear divider, 2-bit exponential divider, no `max_rate`) whose parents are, in
order, the 24 MHz and the 600 MHz clock. -/
def example_node : sunxi_ccu_clock Unit Nat :=
  { info := { name := "example" }
    parents := CLOCK_PARENTS 4 [ { dev := (), id := 0 }, { dev := (), id := 1 } ]
    reg := 84
    mux := BITFIELD 24 2
    m := BITFIELD 0 4
    p := BITFIELD 16 2 }

/-- The state with every register zero, every reference count zero and no
write performed. -/
def zero_state (D I : Type) : State D I :=
  { regs := fun _ _ => 0, refcount := fun _ _ => 0, writes := [] }

/-! ## The sun50i registry (`platform/sun50i/devices.c`) -/

/-- The nine devices of the table, used wherever the source takes the address
of one (`&ccu`, `&r_intc`, ...). -/
inductive device_ref
  | ccu
  | msgbox
  | pio
  | r_ccu
  | r_i2c
  | r_intc
  | r_pio
  | r_timer0
  | r_twd
deriving DecidableEq, Repr

/-- The drivers the devices are bound to. -/
inductive driver
  | sunxi_ccu_driver
  | sunxi_msgbox_driver
  | sunxi_gpio_driver
  | sun6i_a31_i2c_driver
  | sun4i_intc_driver
  | sun8i_r_timer_driver
  | sunxi_twd_driver
deriving DecidableEq, Repr

/-- The clock indices the table uses, by enumerator name (their numeric
values live in the missing `platform/ccu.h` and `platform/r_ccu.h`). -/
inductive clock_id
  | CCU_CLOCK_PLL_PERIPH0
  | CCU_CLOCK_MSGBOX
  | CCU_CLOCK_PIO
  | R_CCU_CLOCK_OSC24M
  | R_CCU_CLOCK_OSC32K
  | R_CCU_CLOCK_OSC16M
  | R_CCU_CLOCK_AHB0
  | R_CCU_CLOCK_APB0
  | R_CCU_CLOCK_R_PIO
  | R_CCU_CLOCK_R_CIR
  | R_CCU_CLOCK_R_TIMER
  | R_CCU_CLOCK_R_UART
  | R_CCU_CLOCK_R_I2C
  | R_CCU_CLOCK_R_TWD
  | R_CCU_CLOCK_R_CIR_MOD
deriving DecidableEq, Repr

/-- The register base addresses, by name (values in the missing
`platform/devices.h`). -/
inductive dev_regs
  | DEV_CCU
  | DEV_MSGBOX
  | DEV_PIO
  | DEV_R_PRCM
  | DEV_R_I2C
  | DEV_R_INTC
  | DEV_R_PIO
  | DEV_R_TIMER
  | DEV_R_TWD
deriving DecidableEq, Repr

/-- The interrupt lines, by name (values in the missing `platform/irq.h`). -/
inductive irq_id
  | IRQ_MSGBOX
  | IRQ_R_I2C
  | IRQ_R_TIMER0
  | IRQ_R_TWD
deriving DecidableEq, Repr

/-- The gate, reset and register offset constants of the missing
`platform/ccu.h` and `platform/r_ccu.h`, taken as parameters. -/
structure sun50i_consts where
  CCU_GATE_MSGBOX : Nat
  CCU_RESET_MSGBOX : Nat
  CCU_GATE_PIO : Nat
  CCU_RESET_PIO : Nat
  R_CCU_CLOCK_AHB0_REG : Nat
  R_CCU_CLOCK_APB0_REG : Nat
  R_CCU_CLOCK_R_CIR_REG : Nat
  R_CCU_GATE_R_PIO : Nat
  R_CCU_GATE_R_CIR : Nat
  R_CCU_RESET_R_CIR : Nat
  R_CCU_GATE_R_TIMER : Nat
  R_CCU_RESET_R_TIMER : Nat
  R_CCU_GATE_R_UART : Nat
  R_CCU_RESET_R_UART : Nat
  R_CCU_GATE_R_I2C : Nat
  R_CCU_RESET_R_I2C : Nat
  R_CCU_GATE_R_TWD : Nat

/-- Modelled from the spec: `struct device` of the missing `dm.h`, with its
optional clock, interrupt controller and bus dependencies (a null pointer, and
the index beside it, is `none`). -/
structure device where
  name : String
  regs : dev_regs
  drv : driver
  bus : Option device_ref := none
  clockdev : Option device_ref := none
  clock : Option clock_id := none
  irqdev : Option device_ref := none
  irq : Option irq_id := none
deriving DecidableEq, Repr

namespace sun50i

open clock_id dev_regs irq_id driver

/-- A clock descriptor of the sun50i tables. -/
abbrev ccu_clock := sunxi_ccu_clock device_ref clock_id

/-- The clock table of `ccu` (`SUNXI_CCU_DRVDATA`), by designated index. -/
def ccu_drvdata (P : sun50i_consts) : clock_id → Option ccu_clock
  | CCU_CLOCK_PLL_PERIPH0 => some (FIXED_CLOCK "pll_periph0" 600000000 [])
  | CCU_CLOCK_MSGBOX => some
      { info := { name := "msgbox", flags := [CLK_FIXED] }
        gate := P.CCU_GATE_MSGBOX
        reset := P.CCU_RESET_MSGBOX }
  | CCU_CLOCK_PIO => some
      { info := { name := "pio", flags := [CLK_FIXED] }
        gate := P.CCU_GATE_PIO
        reset := P.CCU_RESET_PIO }
  | _ => none

/-- The clock table of `r_ccu` (`SUNXI_CCU_DRVDATA`), by designated index. -/
def r_ccu_drvdata (P : sun50i_consts) : clock_id → Option ccu_clock
  | R_CCU_CLOCK_OSC24M => some (FIXED_CLOCK "osc24m" 24000000 [])
  | R_CCU_CLOCK_OSC32K => some (FIXED_CLOCK "osc32k" 32768 [])
  | R_CCU_CLOCK_OSC16M => some (FIXED_CLOCK "osc16m" 16000000 [])
  | R_CCU_CLOCK_AHB0 => some
      { info := { name := "ahb0", max_rate := 300000000, flags := [CLK_CRITICAL] }
        parents := CLOCK_PARENTS 4
          [ { dev := device_ref.r_ccu, id := R_CCU_CLOCK_OSC32K },
            { dev := device_ref.r_ccu, id := R_CCU_CLOCK_OSC24M },
            { dev := device_ref.ccu, id := CCU_CLOCK_PLL_PERIPH0, vdiv := BITFIELD 8 5 },
            { dev := device_ref.r_ccu, id := R_CCU_CLOCK_OSC16M } ]
        reg := P.R_CCU_CLOCK_AHB0_REG
        mux := BITFIELD 16 2
        p := BITFIELD 4 2 }
  | R_CCU_CLOCK_APB0 => some
      { info := { name := "apb0" }
        parents := CLOCK_PARENT device_ref.r_ccu R_CCU_CLOCK_AHB0
        reg := P.R_CCU_CLOCK_APB0_REG
        p := BITFIELD 0 2 }
  | R_CCU_CLOCK_R_PIO => some
      { info := { name := "r_pio" }
        parents := CLOCK_PARENT device_ref.r_ccu R_CCU_CLOCK_APB0
        gate := P.R_CCU_GATE_R_PIO }
  | R_CCU_CLOCK_R_CIR => some
      { info := { name := "r_cir", max_rate := 100000000 }
        parents := CLOCK_PARENT device_ref.r_ccu R_CCU_CLOCK_APB0
        gate := P.R_CCU_GATE_R_CIR
        reset := P.R_CCU_RESET_R_CIR }
  | R_CCU_CLOCK_R_TIMER => some
      { info := { name := "r_timer" }
        parents := CLOCK_PARENT device_ref.r_ccu R_CCU_CLOCK_APB0
        gate := P.R_CCU_GATE_R_TIMER
        reset := P.R_CCU_RESET_R_TIMER }
  | R_CCU_CLOCK_R_UART => some
      { info := { name := "r_uart" }
        parents := CLOCK_PARENT device_ref.r_ccu R_CCU_CLOCK_APB0
        gate := P.R_CCU_GATE_R_UART
        reset := P.R_CCU_RESET_R_UART }
  | R_CCU_CLOCK_R_I2C => some
      { info := { name := "r_i2c" }
        parents := CLOCK_PARENT device_ref.r_ccu R_CCU_CLOCK_APB0
        gate := P.R_CCU_GATE_R_I2C
        reset := P.R_CCU_RESET_R_I2C }
  | R_CCU_CLOCK_R_TWD => some
      { info := { name := "r_twd" }
        parents := CLOCK_PARENT device_ref.r_ccu R_CCU_CLOCK_APB0
        gate := P.R_CCU_GATE_R_TWD }
  | R_CCU_CLOCK_R_CIR_MOD => some
      { info := { name := "r_cir_mod" }
        parents := CLOCK_PARENTS 4
          [ { dev := device_ref.r_ccu, id := R_CCU_CLOCK_OSC32K },
            { dev := device_ref.r_ccu, id := R_CCU_CLOCK_OSC24M } ]
        gate := BITMAP_INDEX (P.R_CCU_CLOCK_R_CIR_REG / 4) 31 % 2 ^ 16
        reg := P.R_CCU_CLOCK_R_CIR_REG
        mux := BITFIELD 24 2
        m := BITFIELD 0 4
        p := BITFIELD 16 2 }
  | _ => none

/-- The device `ccu`. -/
def ccu : device :=
  { name := "ccu", regs := DEV_CCU, drv := sunxi_ccu_driver }

/-- The device `msgbox`. -/
def msgbox : device :=
  { name := "msgbox", regs := DEV_MSGBOX, drv := sunxi_msgbox_driver
    clockdev := some device_ref.ccu, clock := some CCU_CLOCK_MSGBOX
    irqdev := some device_ref.r_intc, irq := some IRQ_MSGBOX }

/-- The device `pio`. -/
def pio : device :=
  { name := "pio", regs := DEV_PIO, drv := sunxi_gpio_driver
    clockdev := some device_ref.ccu, clock := some CCU_CLOCK_PIO }

/-- The device `r_ccu`. -/
def r_ccu : device :=
  { name := "r_ccu", regs := DEV_R_PRCM, drv := sunxi_ccu_driver }

/-- The device `r_i2c`. -/
def r_i2c : device :=
  { name := "r_i2c", regs := DEV_R_I2C, drv := sun6i_a31_i2c_driver
    bus := some device_ref.r_pio
    clockdev := some device_ref.r_ccu, clock := some R_CCU_CLOCK_R_I2C
    irqdev := some device_ref.r_intc, irq := some IRQ_R_I2C }

/-- The device `r_intc`. -/
def r_intc : device :=
  { name := "r_intc", regs := DEV_R_INTC, drv := sun4i_intc_driver }

/-- The device `r_pio`. -/
def r_pio : device :=
  { name := "r_pio", regs := DEV_R_PIO, drv := sunxi_gpio_driver
    clockdev := some device_ref.r_ccu, clock := some R_CCU_CLOCK_R_PIO }

/-- The device `r_timer0`. -/
def r_timer0 : device :=
  { name := "r_timer0", regs := DEV_R_TIMER, drv := sun8i_r_timer_driver
    clockdev := some device_ref.r_ccu, clock := some R_CCU_CLOCK_R_TIMER
    irqdev := some device_ref.r_intc, irq := some IRQ_R_TIMER0 }

/-- The device `r_twd`. -/
def r_twd : device :=
  { name := "r_twd", regs := DEV_R_TWD, drv := sunxi_twd_driver
    clockdev := some device_ref.r_ccu, clock := some R_CCU_CLOCK_R_TWD
    irqdev := some device_ref.r_intc, irq := some IRQ_R_TWD }

/-- Dereferencing a device address. -/
def deref : device_ref → device
  | .ccu => ccu
  | .msgbox => msgbox
  | .pio => pio
  | .r_ccu => r_ccu
  | .r_i2c => r_i2c
  | .r_intc => r_intc
  | .r_pio => r_pio
  | .r_timer0 => r_timer0
  | .r_twd => r_twd

/-- The `drvdata` clock table of a device, empty for the devices whose
`drvdata` is not a clock table. -/
def drvdata (P : sun50i_consts) : device_ref → clock_id → Option ccu_clock
  | .ccu => ccu_drvdata P
  | .r_ccu => r_ccu_drvdata P
  | _ => fun _ => none

/-- Modelled from the spec: the lookup of a (device, clock index) pair, which
succeeds when the device is bound to the sunxi CCU driver and its table has an
entry at the index. -/
def clocks (P : sun50i_consts) : Registry device_ref clock_id :=
  fun d i => if (deref d).drv = sunxi_ccu_driver then drvdata P d i else none

/-- All devices of the table, in source order. -/
def all_devices : List device_ref :=
  [.ccu, .msgbox, .pio, .r_ccu, .r_i2c, .r_intc, .r_pio, .r_timer0, .r_twd]

/-- All clock indices, in source order. -/
def all_clock_ids : List clock_id :=
  [ CCU_CLOCK_PLL_PERIPH0, CCU_CLOCK_MSGBOX, CCU_CLOCK_PIO, R_CCU_CLOCK_OSC24M,
    R_CCU_CLOCK_OSC32K, R_CCU_CLOCK_OSC16M, R_CCU_CLOCK_AHB0, R_CCU_CLOCK_APB0,
    R_CCU_CLOCK_R_PIO, R_CCU_CLOCK_R_CIR, R_CCU_CLOCK_R_TIMER, R_CCU_CLOCK_R_UART,
    R_CCU_CLOCK_R_I2C, R_CCU_CLOCK_R_TWD, R_CCU_CLOCK_R_CIR_MOD ]

/-- Sample values for the platform constants (register offsets 0x00, 0x0c
and 0x54 in `r_ccu`, gate and reset bits in separate words), used to run the
tables on concrete inputs. -/
def example_consts : sun50i_consts :=
  { CCU_GATE_MSGBOX := BITMAP_INDEX 25 21
    CCU_RESET_MSGBOX := BITMAP_INDEX 177 21
    CCU_GATE_PIO := BITMAP_INDEX 26 5
    CCU_RESET_PIO := BITMAP_INDEX 178 5
    R_CCU_CLOCK_AHB0_REG := 0
    R_CCU_CLOCK_APB0_REG := 12
    R_CCU_CLOCK_R_CIR_REG := 84
    R_CCU_GATE_R_PIO := BITMAP_INDEX 10 0
    R_CCU_GATE_R_CIR := BITMAP_INDEX 10 1
    R_CCU_RESET_R_CIR := BITMAP_INDEX 44 1
    R_CCU_GATE_R_TIMER := BITMAP_INDEX 10 2
    R_CCU_RESET_R_TIMER := BITMAP_INDEX 44 2
    R_CCU_GATE_R_UART := BITMAP_INDEX 10 4
    R_CCU_RESET_R_UART := BITMAP_INDEX 44 4
    R_CCU_GATE_R_I2C := BITMAP_INDEX 10 6
    R_CCU_RESET_R_I2C := BITMAP_INDEX 44 6
    R_CCU_GATE_R_TWD := BITMAP_INDEX 10 7 }

/-- A state in which the `ahb0` register (at the offset `example_consts` gives
it) selects mux value 2 (`pll_periph0`) with raw `vdiv` value 1 and raw `p`
value 0, every other register being zero: `ahb0` and `apb0` run at
300,000,000 Hz. -/
def pll_state : State device_ref clock_id :=
  { regs := fun d off => if d = device_ref.r_ccu ∧ off = 0 then 2 * 2 ^ 16 + 1 * 2 ^ 8 else 0
    refcount := fun _ _ => 0
    writes := [] }

/-- The vertices of the dependency graph: the devices and the clock nodes. -/
inductive vertex
  | dev (d : device_ref)
  | clk (d : device_ref) (i : clock_id)
deriving DecidableEq, Repr

/-- The outgoing edges of a vertex: from a device to the clock it consumes, to
its interrupt controller and to its bus; from a clock node to each of its
listed parents. -/
def edges (P : sun50i_consts) : vertex → List vertex
  | .dev d =>
    (match (deref d).clockdev, (deref d).clock with
      | some cd, some ci => [vertex.clk cd ci]
      | _, _ => []) ++
    ((deref d).irqdev.toList.map vertex.dev) ++ ((deref d).bus.toList.map vertex.dev)
  | .clk d i =>
    match clocks P d i with
    | none => []
    | some c => (parent_handles c).map fun h => vertex.clk h.dev h.id

/-- The edge relation of the dependency graph. -/
def edge (P : sun50i_consts) (v w : vertex) : Prop := w ∈ edges P v

/-- The parent edges alone: from a clock node to each of its listed
parents. -/
def parent_edge (P : sun50i_consts) (v w : vertex) : Prop :=
  (∃ d i, v = vertex.clk d i) ∧ w ∈ edges P v

/-- A height for the vertices that strictly decreases along every edge. -/
def rank : vertex → Nat
  | .clk _ R_CCU_CLOCK_AHB0 => 1
  | .clk _ R_CCU_CLOCK_R_CIR_MOD => 1
  | .clk _ R_CCU_CLOCK_APB0 => 2
  | .clk _ R_CCU_CLOCK_R_PIO => 3
  | .clk _ R_CCU_CLOCK_R_CIR => 3
  | .clk _ R_CCU_CLOCK_R_TIMER => 3
  | .clk _ R_CCU_CLOCK_R_UART => 3
  | .clk _ R_CCU_CLOCK_R_I2C => 3
  | .clk _ R_CCU_CLOCK_R_TWD => 3
  | .clk _ _ => 0
  | .dev .r_i2c => 5
  | .dev .r_intc => 0
  | .dev _ => 4

end sun50i

open clock_id driver

/-! ## Bitfield codec lemmas -/

namespace Bitfield

/-- The inserted word, split into the bits below the field, the new field
value and the bits above the field. -/
theorem insert_eq (w : Nat) (f : bitfield_t) (v : Nat) :
    insert w f v =
      w % 2 ^ f.offset + 2 ^ f.offset * (v + 2 ^ f.width * (w / 2 ^ f.offset / 2 ^ f.width)) := by
  unfold insert extract
  have h1 := Nat.mod_add_div w (2 ^ f.offset)
  have h2 := Nat.mod_add_div (w / 2 ^ f.offset) (2 ^ f.width)
  generalize w / 2 ^ f.offset = a at *
  generalize a / 2 ^ f.width = hi at *
  generalize a % 2 ^ f.width = e at *
  generalize w % 2 ^ f.offset = lo at *
  generalize 2 ^ f.offset = A at *
  generalize 2 ^ f.width = B at *
  subst h2
  subst h1
  have : lo + A * (e + B * hi) - e * A = lo + A * (B * hi) := by
    rw [Nat.mul_add, Nat.mul_comm A e]; omega
  rw [this, Nat.mul_add A v, Nat.mul_comm v A]; omega

theorem insert_div (w : Nat) (f : bitfield_t) (v : Nat) :
    insert w f v / 2 ^ f.offset = v + 2 ^ f.width * (w / 2 ^ f.offset / 2 ^ f.width) := by
  rw [insert_eq, Nat.add_mul_div_left _ _ (Nat.two_pow_pos _),
    Nat.div_eq_of_lt (Nat.mod_lt _ (Nat.two_pow_pos _)), Nat.zero_add]

theorem insert_mod (w : Nat) (f : bitfield_t) (v : Nat) :
    insert w f v % 2 ^ f.offset = w % 2 ^ f.offset := by
  rw [insert_eq, Nat.add_mul_mod_self_left, Nat.mod_mod]

/-- A value that fits the field is read back from the field it was inserted
into. -/
theorem extract_insert_same (w : Nat) (f : bitfield_t) (v : Nat) (hv : v < 2 ^ f.width) :
    extract (insert w f v) f = v := by
  unfold extract
  rw [insert_div, Nat.add_mul_mod_self_left, Nat.mod_eq_of_lt hv]

/-- A field that ends at or below bit `o` only depends on the low `o` bits. -/
theorem extract_low (a : Nat) (g : bitfield_t) (o : Nat) (h : g.offset + g.width ≤ o) :
    extract (a % 2 ^ o) g = extract a g := by
  unfold extract
  obtain ⟨j, rfl⟩ : ∃ j, o = g.offset + (g.width + j) := ⟨o - g.offset - g.width, by omega⟩
  rw [pow_add, Nat.mod_mul_right_div_self, pow_add, Nat.mod_mod_of_dvd _ (Dvd.intro _ rfl)]

/-- Inserting a value that fits into one field leaves a disjoint field
unchanged. -/
theorem extract_insert_disjoint (w : Nat) (f g : bitfield_t) (v : Nat) (hv : v < 2 ^ f.width)
    (hd : disjoint f g) : extract (insert w f v) g = extract w g := by
  rcases hd with h | h
  · obtain ⟨j, hj⟩ : ∃ j, g.offset = f.offset + (f.width + j) :=
      ⟨g.offset - f.offset - f.width, by omega⟩
    unfold extract
    rw [hj, pow_add, pow_add, ← Nat.div_div_eq_div_mul, ← Nat.div_div_eq_div_mul,
      ← Nat.div_div_eq_div_mul, ← Nat.div_div_eq_div_mul, insert_div,
      Nat.add_mul_div_left _ _ (Nat.two_pow_pos _), Nat.div_eq_of_lt hv, Nat.zero_add]
  · rw [← extract_low (insert w f v) g f.offset h, insert_mod, extract_low w g f.offset h]

theorem extract_absent (w o : Nat) : extract w ⟨o, 0⟩ = 0 := by
  simp [extract, Nat.mod_one]

theorem disjoint_symm {f g : bitfield_t} (h : disjoint f g) : disjoint g f :=
  Or.symm h

end Bitfield

theorem bitmap_bit_index (w b : Nat) (hb : b < 32) :
    bitmap_bit (BITMAP_INDEX w b % 2 ^ 16) = b := by
  unfold bitmap_bit BITMAP_INDEX
  rw [Nat.mod_mod_of_dvd _ (by decide : 32 ∣ 2 ^ 16), Nat.mul_add_mod, Nat.mod_eq_of_lt hb]

/-! ## Engine lemmas -/

section engine_lemmas

variable {D I : Type}

theorem better_mem (target : Nat) (best : Option candidate) (x : candidate) (b : candidate)
    (h : better target best x = some b) : b = x ∨ best = some b := by
  unfold better at h
  cases best with
  | none => left; simpa using h.symm
  | some b0 =>
    simp only at h
    split at h
    · left; simpa using h.symm
    · right; exact h

theorem foldl_better_mem (target : Nat) (cs : List candidate) (init : Option candidate)
    (b : candidate) (h : cs.foldl (better target) init = some b) : b ∈ cs ∨ init = some b := by
  induction cs generalizing init with
  | nil => right; simpa using h
  | cons x xs ih =>
    rw [List.foldl_cons] at h
    rcases ih _ h with hm | hi
    · left; exact List.mem_cons_of_mem _ hm
    · rcases better_mem _ _ _ _ hi with rfl | hb
      · left; exact List.mem_cons_self _ _
      · right; exact hb

/-- The selected candidate is one of the candidates. -/
theorem best_candidate_mem (target : Nat) (cs : List candidate) (b : candidate)
    (h : best_candidate target cs = some b) : b ∈ cs := by
  rcases foldl_better_mem target cs none b h with hm | hn
  · exact hm
  · cases hn

theorem mem_divider_candidates (c : sunxi_ccu_clock D I) (idx pr : Nat) (b : candidate)
    (h : b ∈ divider_candidates c idx pr) :
    b.parent = idx ∧ b.m < 2 ^ c.m.width ∧ b.p < 2 ^ c.p.width ∧
      b.rate = pr / (b.m + 1) / 2 ^ b.p ∧ (c.info.max_rate ≠ 0 → b.rate ≤ c.info.max_rate) := by
  unfold divider_candidates at h
  rw [List.mem_flatMap] at h
  obtain ⟨p, hp, h⟩ := h
  rw [List.mem_filterMap] at h
  obtain ⟨m, hm, h⟩ := h
  rw [List.mem_range] at hp hm
  simp only at h
  split at h
  · cases h
  · rename_i hnot
    cases h
    refine ⟨rfl, hm, hp, rfl, ?_⟩
    intro h0
    simp only
    by_contra hlt
    exact hnot ⟨h0, Nat.lt_of_not_le hlt⟩

theorem divider_candidates_congr (c c' : sunxi_ccu_clock D I) (idx pr : Nat)
    (hm : c.m.width = c'.m.width) (hp : c.p.width = c'.p.width)
    (hmax : c.info.max_rate = c'.info.max_rate) :
    divider_candidates c idx pr = divider_candidates c' idx pr := by
  unfold divider_candidates
  rw [hm, hp, hmax]

/-- What membership in the candidate list of a node means. -/
theorem mem_candidates [DecidableEq D] (R : Registry D I) (depth : Nat) (regs : Regs D) (d : D)
    (c : sunxi_ccu_clock D I) (b : candidate) (h : b ∈ candidates R depth regs d c) :
    b.parent < 2 ^ c.mux.width ∧ b.m < 2 ^ c.m.width ∧ b.p < 2 ^ c.p.width ∧
      (c.info.max_rate ≠ 0 → b.rate ≤ c.info.max_rate) ∧
      ∃ hd pr, c.parents.getD b.parent none = some hd ∧
        get_rate R depth regs hd.dev hd.id = .ok pr ∧
        b.rate = pr / (Bitfield.extract (regs d c.reg) hd.vdiv + 1) / (b.m + 1) / 2 ^ b.p := by
  unfold candidates at h
  rw [List.mem_flatMap] at h
  obtain ⟨idx, hidx, h⟩ := h
  rw [List.mem_range] at hidx
  split at h
  · cases h
  · rename_i hd hpar
    split at h
    · cases h
    · rename_i pr hpr
      obtain ⟨h1, h2, h3, h4, h5⟩ := mem_divider_candidates c idx _ b h
      subst h1
      exact ⟨hidx, h2, h3, h5, hd, pr, hpar, hpr, h4⟩

theorem mem_parent_handles (c : sunxi_ccu_clock D I) (k : Nat) (hd : clock_handle D I)
    (h : c.parents.getD k none = some hd) : hd ∈ parent_handles c := by
  unfold parent_handles
  rw [List.mem_filterMap]
  refine ⟨some hd, ?_, rfl⟩
  rw [List.getD_eq_getElem?_getD] at h
  cases hk : c.parents[k]? with
  | none => rw [hk] at h; cases h
  | some o =>
    rw [hk] at h
    simp only [Option.getD_some] at h
    subst h
    exact List.getElem?_mem hk

/-- Reading the fields of the committed word back on a sound layout. -/
theorem extract_commit (c : sunxi_ccu_clock D I) (w : Nat) (b : candidate)
    (hl : layout_ok c) (hmux : b.parent < 2 ^ c.mux.width) (hm : b.m < 2 ^ c.m.width)
    (hp : b.p < 2 ^ c.p.width) :
    Bitfield.extract (commit_word c w b % 2 ^ 32) c.mux = b.parent ∧
    Bitfield.extract (commit_word c w b % 2 ^ 32) c.m = b.m ∧
    Bitfield.extract (commit_word c w b % 2 ^ 32) c.p = b.p ∧
    ∀ h ∈ parent_handles c,
      Bitfield.extract (commit_word c w b % 2 ^ 32) h.vdiv = Bitfield.extract w h.vdiv := by
  obtain ⟨h32, dmm, dmp, dmp2, hv⟩ := hl
  have a1 : c.mux.offset + c.mux.width ≤ 32 := h32 _ (by simp [all_bitfields])
  have a2 : c.m.offset + c.m.width ≤ 32 := h32 _ (by simp [all_bitfields])
  have a3 : c.p.offset + c.p.width ≤ 32 := h32 _ (by simp [all_bitfields])
  unfold commit_word
  refine ⟨?_, ?_, ?_, ?_⟩
  · rw [Bitfield.extract_low _ _ _ a1,
      Bitfield.extract_insert_disjoint _ _ _ _ hp (Bitfield.disjoint_symm dmp),
      Bitfield.extract_insert_disjoint _ _ _ _ hm (Bitfield.disjoint_symm dmm),
      Bitfield.extract_insert_same _ _ _ hmux]
  · rw [Bitfield.extract_low _ _ _ a2,
      Bitfield.extract_insert_disjoint _ _ _ _ hp (Bitfield.disjoint_symm dmp2),
      Bitfield.extract_insert_same _ _ _ hm]
  · rw [Bitfield.extract_low _ _ _ a3, Bitfield.extract_insert_same _ _ _ hp]
  · intro h hh
    obtain ⟨e1, e2, e3⟩ := hv h hh
    have a4 : h.vdiv.offset + h.vdiv.width ≤ 32 :=
      h32 _ (by simp only [all_bitfields, List.mem_append, List.mem_map]; right; exact ⟨h, hh, rfl⟩)
    rw [Bitfield.extract_low _ _ _ a4,
      Bitfield.extract_insert_disjoint _ _ _ _ hp e3,
      Bitfield.extract_insert_disjoint _ _ _ _ hm e2,
      Bitfield.extract_insert_disjoint _ _ _ _ hmux e1]

/-- A bit range that overlaps none of the mux, m and p fields of a node reads
the same before and after a commit to that node. -/
theorem extract_commit_frame (c : sunxi_ccu_clock D I) (w : Nat) (b : candidate)
    (f : bitfield_t) (h32 : f.offset + f.width ≤ 32) (d1 : Bitfield.disjoint c.mux f)
    (d2 : Bitfield.disjoint c.m f) (d3 : Bitfield.disjoint c.p f)
    (hmux : b.parent < 2 ^ c.mux.width) (hm : b.m < 2 ^ c.m.width)
    (hp : b.p < 2 ^ c.p.width) :
    Bitfield.extract (commit_word c w b % 2 ^ 32) f = Bitfield.extract w f := by
  unfold commit_word
  rw [Bitfield.extract_low _ _ _ h32,
    Bitfield.extract_insert_disjoint _ _ _ _ hp d3,
    Bitfield.extract_insert_disjoint _ _ _ _ hm d2,
    Bitfield.extract_insert_disjoint _ _ _ _ hmux d1]

/-- What a successful `set_rate` on a mux-divider did: it committed one of the
candidates and returned its rate. -/
theorem set_rate_mux_ok [DecidableEq D] (R : Registry D I) (depth : Nat) (st : State D I)
    (d : D) (i : I) (target r : Nat) (c : sunxi_ccu_clock D I) (hc : R d i = some c)
    (hvar : variant c = clock_variant.MuxDivider)
    (h : (set_rate R depth st d i target).1 = .ok r) :
    ∃ k b, depth = k + 1 ∧ b ∈ candidates R k st.regs d c ∧ b.rate = r ∧
      (set_rate R depth st d i target).2 =
        write st d c.reg (commit_word c (st.regs d c.reg) b) := by
  cases depth with
  | zero => simp [set_rate] at h
  | succ k =>
    simp only [set_rate, hc, hvar] at h ⊢
    cases hb : best_candidate target (candidates R k st.regs d c) with
    | none => rw [hb] at h; simp at h
    | some b =>
      rw [hb] at h
      simp only [Except.ok.injEq] at h
      exact ⟨k, b, rfl, best_candidate_mem _ _ _ hb, h, rfl⟩

theorem set_rate_get_rate_aux [DecidableEq D] (R : Registry D I) (depth : Nat) (st : State D I)
    (d : D) (i : I) (target r : Nat) (c : sunxi_ccu_clock D I) (hc : R d i = some c)
    (hvar : variant c = clock_variant.MuxDivider) (hl : layout_ok c)
    (hind : ∀ h ∈ parent_handles c, ∀ b : candidate, b.parent < 2 ^ c.mux.width →
      b.m < 2 ^ c.m.width → b.p < 2 ^ c.p.width →
      get_rate R (depth - 1)
          (write st d c.reg (commit_word c (st.regs d c.reg) b)).regs h.dev h.id =
        get_rate R (depth - 1) st.regs h.dev h.id)
    (h : (set_rate R depth st d i target).1 = .ok r) :
    get_rate R depth (set_rate R depth st d i target).2.regs d i = .ok r := by
  obtain ⟨k, b, rfl, hb, hr, hst⟩ := set_rate_mux_ok R depth st d i target r c hc hvar h
  obtain ⟨b1, b2, b3, -, hd, pr, hpar, hpr, hrate⟩ := mem_candidates R k st.regs d c b hb
  have hmem := mem_parent_handles c b.parent hd hpar
  obtain ⟨x1, x2, x3, x4⟩ := extract_commit c (st.regs d c.reg) b hl b1 b2 b3
  rw [hst]
  have hw : (write st d c.reg (commit_word c (st.regs d c.reg) b)).regs d c.reg =
      commit_word c (st.regs d c.reg) b % 2 ^ 32 := by simp [write]
  have hp' := hind hd hmem b b1 b2 b3
  simp only [Nat.add_sub_cancel] at hp'
  simp only [get_rate, hc, hvar, hw, x1, x2, x3, hpar, hp', hpr, x4 hd hmem]
  rw [← hr, hrate]

theorem get_rate_fixed (R : Registry D I) (k : Nat) (regs : Regs D) (d : D) (i : I)
    (c : sunxi_ccu_clock D I) (hc : R d i = some c) (hv : variant c = clock_variant.Fixed) :
    get_rate R (k + 1) regs d i = .ok c.info.fixed_rate := by
  simp [get_rate, hc, hv]

/-- The rate of a fixed clock does not depend on the registers. -/
theorem fixed_parents_indep (R : Registry D I) (n : Nat) (regs regs' : Regs D)
    (d : D) (i : I) (c : sunxi_ccu_clock D I) (hc : R d i = some c)
    (hv : variant c = clock_variant.Fixed) :
    get_rate R n regs' d i = get_rate R n regs d i := by
  cases n with
  | zero => rfl
  | succ k => rw [get_rate_fixed R k regs' d i c hc hv, get_rate_fixed R k regs d i c hc hv]

theorem fixed_of_map (R : Registry D I) (d : D) (i : I)
    (h : (R d i).map variant = some clock_variant.Fixed) :
    ∃ c, R d i = some c ∧ variant c = clock_variant.Fixed := by
  cases hc : R d i with
  | none => rw [hc] at h; cases h
  | some c =>
    rw [hc] at h
    exact ⟨c, rfl, Option.some.inj h⟩

/-- The rate of a mux-divider over fixed parents only depends on what its
bitfields read in its register. -/
theorem get_rate_congr_fields (R : Registry D I) (n : Nat) (regs regs' : Regs D) (d : D)
    (i : I) (c : sunxi_ccu_clock D I) (hc : R d i = some c)
    (hvar : variant c = clock_variant.MuxDivider)
    (hfix : ∀ h ∈ parent_handles c, (R h.dev h.id).map variant = some clock_variant.Fixed)
    (hf : ∀ f ∈ all_bitfields c,
      Bitfield.extract (regs' d c.reg) f = Bitfield.extract (regs d c.reg) f) :
    get_rate R n regs' d i = get_rate R n regs d i := by
  cases n with
  | zero => rfl
  | succ k =>
    have e1 := hf c.mux (by simp [all_bitfields])
    have e2 := hf c.m (by simp [all_bitfields])
    have e3 := hf c.p (by simp [all_bitfields])
    simp only [get_rate, hc, hvar, e1, e2, e3]
    cases hsel : c.parents.getD (Bitfield.extract (regs d c.reg) c.mux) none with
    | none => rfl
    | some h =>
      have hmem := mem_parent_handles c _ h hsel
      obtain ⟨c', hc', hv'⟩ := fixed_of_map R h.dev h.id (hfix h hmem)
      have e4 := hf h.vdiv
        (by simp only [all_bitfields, List.mem_append, List.mem_map]; right; exact ⟨h, hmem, rfl⟩)
      simp only [fixed_parents_indep R k regs regs' h.dev h.id c' hc' hv', e4]

theorem control_ranges_pairwise (c : sunxi_ccu_clock D I)
    (hp : List.Pairwise Bitfield.disjoint (all_bitfields c))
    (hb : c.gate = 0 ∨ (∀ f ∈ all_bitfields c, f.offset + f.width = 0) ∨
      ∃ k, bitmap_bit c.gate = k ∧ ∀ f ∈ all_bitfields c, f.offset + f.width ≤ k) :
    List.Pairwise Bitfield.disjoint (control_ranges c) := by
  unfold control_ranges
  split
  · rename_i hcond
    rw [List.pairwise_append]
    refine ⟨hp, List.pairwise_singleton _ _, ?_⟩
    intro f hf g hg
    rw [List.mem_singleton] at hg
    subst hg
    rcases hb with h0 | hz | ⟨k, hk, hle⟩
    · exact absurd h0 hcond.1
    · exact Or.inl (by rw [hz f hf]; exact Nat.zero_le _)
    · exact Or.inl (by rw [hk]; exact hle f hf)
  · rw [List.append_nil]; exact hp

theorem pairwise_disjoint_frame (l : List bitfield_t) (hp : List.Pairwise Bitfield.disjoint l)
    (a b : Fin l.length) (hab : a ≠ b) (word value : Nat) (hv : value < 2 ^ (l.get a).width) :
    Bitfield.extract (Bitfield.insert word (l.get a) value) (l.get b) =
      Bitfield.extract word (l.get b) := by
  rw [List.pairwise_iff_get] at hp
  apply Bitfield.extract_insert_disjoint _ _ _ _ hv
  rcases Nat.lt_or_gt_of_ne (fun h => hab (Fin.ext h)) with h | h
  · exact hp a b h
  · exact Bitfield.disjoint_symm (hp b a h)

end engine_lemmas

/-! ## The two-parent example -/

theorem two_parent_rate0 (node : sunxi_ccu_clock Unit Nat) (k : Nat) (regs : Regs Unit) :
    get_rate (two_parent_registry node) (k + 1) regs () 0 = .ok 24000000 := by
  simp [get_rate, two_parent_registry, variant, FIXED_CLOCK]

theorem two_parent_rate1 (node : sunxi_ccu_clock Unit Nat) (k : Nat) (regs : Regs Unit) :
    get_rate (two_parent_registry node) (k + 1) regs () 1 = .ok 600000000 := by
  simp [get_rate, two_parent_registry, variant, FIXED_CLOCK]

/-- The candidates of a node over the two fixed parents: the divider
combinations of the 24 MHz parent, then those of the 600 MHz parent. -/
theorem two_parent_candidates (node : sunxi_ccu_clock Unit Nat) (k : Nat) (regs : Regs Unit)
    (hw : node.mux.width = 1 ∨ node.mux.width = 2)
    (hp : node.parents =
      CLOCK_PARENTS (2 ^ node.mux.width) [ { dev := (), id := 0 }, { dev := (), id := 1 } ]) :
    candidates (two_parent_registry node) (k + 1) regs () node =
      divider_candidates node 0 24000000 ++ divider_candidates node 1 600000000 := by
  have hr1 : List.range (2 ^ 1) = [0, 1] := by decide
  have hr2 : List.range (2 ^ 2) = [0, 1, 2, 3] := by decide
  unfold candidates
  rcases hw with hw | hw
  · rw [hp, hw, hr1]
    simp [CLOCK_PARENTS, two_parent_rate0, two_parent_rate1, BITFIELD_ZERO,
      Bitfield.extract_absent]
  · rw [hp, hw, hr2]
    simp [CLOCK_PARENTS, two_parent_rate0, two_parent_rate1, BITFIELD_ZERO,
      Bitfield.extract_absent]

set_option maxRecDepth 100000 in
/-- The search over the 128 candidates of the example, evaluated. -/
theorem example_best :
    best_candidate 100000000
      (divider_candidates example_node 0 24000000 ++
        divider_candidates example_node 1 600000000) = some ⟨1, 5, 0, 100000000⟩ := by
  decide

/-! ## Lemmas on the sun50i tables -/

namespace sun50i

/-- A successful lookup is a hit in the table of `ccu` or of `r_ccu`. -/
theorem clocks_drvdata (P : sun50i_consts) (d : device_ref) (i : clock_id) (c : ccu_clock)
    (h : clocks P d i = some c) :
    (d = device_ref.ccu ∨ d = device_ref.r_ccu) ∧ (deref d).drv = sunxi_ccu_driver ∧
      drvdata P d i = some c := by
  cases d <;> first
    | exact ⟨Or.inl rfl, rfl, h⟩
    | exact ⟨Or.inr rfl, rfl, h⟩
    | cases h

/-- The descriptor of `ahb0`: a mux-divider on a sound layout, bounded by
300 MHz, all of whose parents are fixed clocks, and none of whose fields
overlaps the divider field of `apb0` (bits 0..1). -/
theorem ahb0_lookup (P : sun50i_consts) :
    ∃ c, clocks P device_ref.r_ccu R_CCU_CLOCK_AHB0 = some c ∧
      variant c = clock_variant.MuxDivider ∧ layout_ok c ∧ c.info.max_rate = 300000000 ∧
      c.reg = P.R_CCU_CLOCK_AHB0_REG ∧
      (∀ h ∈ parent_handles c,
        (clocks P h.dev h.id).map variant = some clock_variant.Fixed) ∧
      ∀ f ∈ all_bitfields c, f.offset + f.width ≤ 32 ∧
        Bitfield.disjoint BITFIELD_ZERO f ∧ Bitfield.disjoint (BITFIELD 0 2) f :=
  ⟨_, rfl, of_decide_eq_true rfl, of_decide_eq_true rfl, rfl, rfl, of_decide_eq_true rfl,
    of_decide_eq_true rfl⟩

/-- Fixed parents keep their rate whatever is written to a register. -/
theorem fixed_parents_keep_rate (P : sun50i_consts) (n : Nat) (regs regs' : Regs device_ref)
    (c : ccu_clock)
    (hfix : ∀ h ∈ parent_handles c,
      (clocks P h.dev h.id).map variant = some clock_variant.Fixed) :
    ∀ h ∈ parent_handles c,
      get_rate (clocks P) n regs' h.dev h.id = get_rate (clocks P) n regs h.dev h.id := by
  intro h hh
  obtain ⟨c', hc', hv'⟩ := fixed_of_map (clocks P) h.dev h.id (hfix h hh)
  exact fixed_parents_indep _ _ _ _ _ _ c' hc' hv'

/-- A commit to `apb0` leaves the rate of its parent `ahb0` unchanged, also
when the platform constants put both nodes in one register. -/
theorem apb0_commit_keeps_ahb0 (P : sun50i_consts) (n : Nat) (st : State device_ref clock_id)
    (c : ccu_clock) (hc : clocks P device_ref.r_ccu R_CCU_CLOCK_APB0 = some c) (b : candidate)
    (hmux : b.parent < 2 ^ c.mux.width) (hm : b.m < 2 ^ c.m.width) (hp : b.p < 2 ^ c.p.width) :
    get_rate (clocks P) n
        (write st device_ref.r_ccu c.reg (commit_word c (st.regs device_ref.r_ccu c.reg) b)).regs
        device_ref.r_ccu R_CCU_CLOCK_AHB0 =
      get_rate (clocks P) n st.regs device_ref.r_ccu R_CCU_CLOCK_AHB0 := by
  obtain ⟨a, ha, hvar, -, -, -, hfix, hfields⟩ := ahb0_lookup P
  cases hc
  apply get_rate_congr_fields (clocks P) n _ _ _ _ a ha hvar hfix
  intro f hf
  obtain ⟨h32, d1, d2⟩ := hfields f hf
  by_cases heq : a.reg = P.R_CCU_CLOCK_APB0_REG
  · simp only [write, heq, and_self, if_true]
    exact extract_commit_frame _ _ b f h32 d1 d1 d2 hmux hm hp
  · simp only [write, heq, and_false, if_false]

/-- A commit to a mux-divider of the sun50i tables leaves the rate of each of
its parents unchanged. -/
theorem commit_keeps_parent_rate (P : sun50i_consts) (n : Nat)
    (st : State device_ref clock_id) (d : device_ref) (i : clock_id) (c : ccu_clock)
    (hc : clocks P d i = some c) (hvar : variant c = clock_variant.MuxDivider) :
    ∀ h ∈ parent_handles c, ∀ b : candidate, b.parent < 2 ^ c.mux.width →
      b.m < 2 ^ c.m.width → b.p < 2 ^ c.p.width →
      get_rate (clocks P) n
          (write st d c.reg (commit_word c (st.regs d c.reg) b)).regs h.dev h.id =
        get_rate (clocks P) n st.regs h.dev h.id := by
  by_cases hi : d = device_ref.r_ccu ∧ i = R_CCU_CLOCK_APB0
  · obtain ⟨rfl, rfl⟩ := hi
    intro h hh b b1 b2 b3
    have key := apb0_commit_keeps_ahb0 P n st c hc b b1 b2 b3
    cases hc
    have hh' : h ∈ [({ dev := device_ref.r_ccu, id := R_CCU_CLOCK_AHB0 } : clock_handle _ _)] :=
      hh
    rw [List.mem_singleton] at hh'
    subst hh'
    exact key
  · have hfix : ∀ h ∈ parent_handles c,
        (clocks P h.dev h.id).map variant = some clock_variant.Fixed := by
      obtain ⟨hd, -, hc'⟩ := clocks_drvdata P d i c hc
      rcases hd with rfl | rfl <;> cases i <;> cases hc' <;> first
        | exact absurd hvar (of_decide_eq_true rfl)
        | exact of_decide_eq_true rfl
        | exact absurd (And.intro rfl rfl) hi
    intro h hh b _ _ _
    exact fixed_parents_keep_rate P n _ _ c hfix h hh

/-- Every mux-divider of the sun50i tables has a sound register layout. -/
theorem mux_divider_layout_ok (P : sun50i_consts) (d : device_ref) (i : clock_id)
    (c : ccu_clock) (hc : clocks P d i = some c) : layout_ok c := by
  obtain ⟨hd, -, hc'⟩ := clocks_drvdata P d i c hc
  rcases hd with rfl | rfl <;> cases i <;> cases hc' <;> exact of_decide_eq_true rfl

/-- Every non-null parent handle of a node resolves. -/
theorem parent_handles_resolve (P : sun50i_consts) (d : device_ref) (i : clock_id)
    (c : ccu_clock) (h : clocks P d i = some c) :
    ∀ hd ∈ parent_handles c,
      (hd.dev = device_ref.ccu ∨ hd.dev = device_ref.r_ccu) ∧
        (deref hd.dev).drv = sunxi_ccu_driver ∧
        (drvdata P hd.dev hd.id).isSome = true ∧ (clocks P hd.dev hd.id).isSome = true := by
  obtain ⟨hd, -, h⟩ := clocks_drvdata P d i c h
  rcases hd with rfl | rfl <;> cases i <;> cases h <;> exact of_decide_eq_true rfl

/-- The height strictly decreases along every edge. -/
theorem rank_decreasing (P : sun50i_consts) (v w : vertex) (h : edge P v w) :
    rank w < rank v := by
  have key : ∀ w ∈ edges P v, rank w < rank v := by
    cases v with
    | dev d => cases d <;> exact of_decide_eq_true rfl
    | clk d i => cases d <;> cases i <;> exact of_decide_eq_true rfl
  exact key w h

theorem rank_decreasing_trans (P : sun50i_consts) (v w : vertex)
    (h : Relation.TransGen (edge P) v w) : rank w < rank v := by
  induction h with
  | single h => exact rank_decreasing P _ _ h
  | tail _ h ih => exact Nat.lt_trans (rank_decreasing P _ _ h) ih

/-- A defined clock node without outgoing edges has an empty parent table
and the FIXED flag. -/
theorem parentless_is_fixed (P : sun50i_consts) (d : device_ref) (i : clock_id)
    (c : ccu_clock) (h : clocks P d i = some c) (he : edges P (vertex.clk d i) = []) :
    c.parents = [] ∧ CLK_FIXED ∈ c.info.flags := by
  obtain ⟨hd, -, h⟩ := clocks_drvdata P d i c h
  rcases hd with rfl | rfl <;> cases i <;> cases h <;> first
    | exact ⟨rfl, of_decide_eq_true rfl⟩
    | exact absurd he (of_decide_eq_true rfl)

/-- A parent edge out of a defined clock node leads to a defined clock
node. -/
theorem parent_edge_defined (P : sun50i_consts) (v w : vertex)
    (hv : ∃ d i c, v = vertex.clk d i ∧ clocks P d i = some c) (h : parent_edge P v w) :
    ∃ d i c, w = vertex.clk d i ∧ clocks P d i = some c := by
  obtain ⟨d, i, c, rfl, hc⟩ := hv
  have hw : w ∈ edges P (vertex.clk d i) := h.2
  simp only [edges, hc, List.mem_map] at hw
  obtain ⟨hd, hmem, rfl⟩ := hw
  have := (parent_handles_resolve P d i c hc hd hmem).2.2.2
  obtain ⟨c', hc'⟩ := Option.isSome_iff_exists.mp this
  exact ⟨_, _, c', rfl, hc'⟩

end sun50i

/-! ## The claims -/

/-- C1: a mux-divider node over a fixed 24,000,000 Hz parent (slot 0) and a
fixed 600,000,000 Hz parent (slot 1), with a 4-bit linear divider, a 2-bit
exponential divider and no `max_rate`, asked for 100,000,000 Hz: `set_rate`
returns exactly 100,000,000 and its single register write commits parent
index 1, raw m = 5 and raw p = 0 (so neither m = 2, p = 1 nor any combination
on the 24 MHz parent); on a sound layout these three values are what the mux,
m and p fields of the register then hold. -/
theorem two_parent_set_rate (c : sunxi_ccu_clock Unit Nat) (k : Nat) (st : State Unit Nat)
    (hfix : CLK_FIXED ∉ c.info.flags) (hmax : c.info.max_rate = 0)
    (hmux : c.mux.width = 1 ∨ c.mux.width = 2)
    (hpar : c.parents =
      CLOCK_PARENTS (2 ^ c.mux.width) [ { dev := (), id := 0 }, { dev := (), id := 1 } ])
    (hm : c.m.width = 4) (hp : c.p.width = 2) :
    set_rate (two_parent_registry c) (k + 2) st () 2 100000000 =
      (.ok 100000000,
        write st () c.reg (commit_word c (st.regs () c.reg) ⟨1, 5, 0, 100000000⟩)) ∧
    (layout_ok c →
      Bitfield.extract
        ((set_rate (two_parent_registry c) (k + 2) st () 2 100000000).2.regs () c.reg)
        c.mux = 1 ∧
      Bitfield.extract
        ((set_rate (two_parent_registry c) (k + 2) st () 2 100000000).2.regs () c.reg)
        c.m = 5 ∧
      Bitfield.extract
        ((set_rate (two_parent_registry c) (k + 2) st () 2 100000000).2.regs () c.reg)
        c.p = 0) := by
  have hs : set_rate (two_parent_registry c) (k + 2) st () 2 100000000 =
      (.ok 100000000,
        write st () c.reg (commit_word c (st.regs () c.reg) ⟨1, 5, 0, 100000000⟩)) := by
    have hv : variant c = clock_variant.MuxDivider := by
      simp [variant, hfix, hm]
    have hc : two_parent_registry c () 2 = some c := rfl
    have hbest : best_candidate 100000000 (candidates (two_parent_registry c) (k + 1) st.regs () c)
        = some ⟨1, 5, 0, 100000000⟩ := by
      rw [two_parent_candidates c k st.regs hmux hpar,
        divider_candidates_congr c example_node 0 _ hm hp hmax,
        divider_candidates_congr c example_node 1 _ hm hp hmax]
      exact example_best
    simp only [set_rate, hc, hv, hbest]
  refine ⟨hs, ?_⟩
  intro hl
  rw [hs]
  have hw : (write st () c.reg
      (commit_word c (st.regs () c.reg) ⟨1, 5, 0, 100000000⟩)).regs () c.reg =
      commit_word c (st.regs () c.reg) ⟨1, 5, 0, 100000000⟩ % 2 ^ 32 := by
    simp [write]
  obtain ⟨x1, x2, x3, -⟩ := extract_commit c (st.regs () c.reg) ⟨1, 5, 0, 100000000⟩ hl
    (by rcases hmux with h | h <;> rw [h] <;> decide) (by rw [hm]; decide) (by rw [hp]; decide)
  simp only [hw]
  exact ⟨x1, x2, x3⟩

/-- C1, on the example node (the register layout of `r_cir_mod`) from the
all-zero state: the call returns 100,000,000 and writes the word 0x01000005,
that is mux = 1, m = 5, p = 0. -/
theorem two_parent_set_rate_witness :
    set_rate (two_parent_registry example_node) 2 (zero_state Unit Nat) () 2 100000000 =
      (.ok 100000000,
        write (zero_state Unit Nat) () example_node.reg
          (commit_word example_node ((zero_state Unit Nat).regs () example_node.reg)
            ⟨1, 5, 0, 100000000⟩)) ∧
    commit_word example_node ((zero_state Unit Nat).regs () example_node.reg)
      ⟨1, 5, 0, 100000000⟩ = 16777221 :=
  ⟨(two_parent_set_rate example_node 0 (zero_state Unit Nat) (by decide) rfl
      (Or.inr rfl) rfl rfl rfl).1, by decide⟩

/-- C2: for every mux-divider node of the sun50i tables (`ahb0`, `apb0`,
`r_cir_mod`), whatever the platform constants, the depth bound, the register
state and the target, when `set_rate` succeeds with rate `r` the `get_rate`
issued immediately afterwards returns `r`; and the same holds in any registry
for a mux-divider whose mux, m, p and parent `vdiv` fields are distinct bit
ranges of the 32-bit register word and whose parents keep their rate across
the committed write. -/
theorem set_rate_get_rate_roundtrip :
    (∀ (P : sun50i_consts) (depth : Nat) (st : State device_ref clock_id) (d : device_ref)
      (i : clock_id) (c : sun50i.ccu_clock) (target r : Nat), sun50i.clocks P d i = some c →
      variant c = clock_variant.MuxDivider →
      (set_rate (sun50i.clocks P) depth st d i target).1 = .ok r →
      get_rate (sun50i.clocks P) depth
        (set_rate (sun50i.clocks P) depth st d i target).2.regs d i = .ok r) ∧
    (∀ {D I : Type} [DecidableEq D] (R : Registry D I) (depth : Nat) (st : State D I) (d : D)
      (i : I) (target r : Nat) (c : sunxi_ccu_clock D I), R d i = some c →
      variant c = clock_variant.MuxDivider → layout_ok c →
      (∀ h ∈ parent_handles c, ∀ b : candidate, b.parent < 2 ^ c.mux.width →
        b.m < 2 ^ c.m.width → b.p < 2 ^ c.p.width →
        get_rate R (depth - 1)
            (write st d c.reg (commit_word c (st.regs d c.reg) b)).regs h.dev h.id =
          get_rate R (depth - 1) st.regs h.dev h.id) →
      (set_rate R depth st d i target).1 = .ok r →
      get_rate R depth (set_rate R depth st d i target).2.regs d i = .ok r) := by
  refine ⟨?_, ?_⟩
  · intro P depth st d i c target r hc hvar hset
    exact set_rate_get_rate_aux _ depth st d i target r c hc hvar
      (sun50i.mux_divider_layout_ok P d i c hc)
      (sun50i.commit_keeps_parent_rate P _ st d i c hc hvar) hset
  · intro D I _ R depth st d i target r c hc hvar hl hind hset
    exact set_rate_get_rate_aux R depth st d i target r c hc hvar hl hind hset

set_option maxRecDepth 100000 in
/-- C2 on `apb0` of the sun50i tables, whose parent `ahb0` is itself a
mux-divider: with `ahb0` at 300,000,000 Hz and a target of 100,000,000 Hz,
`set_rate` reports 75,000,000 (300 MHz / 4, the closest of 300, 150, 75 and
37.5 MHz) and `get_rate` reads 75,000,000 back. -/
theorem set_rate_get_rate_roundtrip_witness :
    (set_rate (sun50i.clocks sun50i.example_consts) 3 sun50i.pll_state device_ref.r_ccu
        clock_id.R_CCU_CLOCK_APB0 100000000).1 = .ok 75000000 ∧
    get_rate (sun50i.clocks sun50i.example_consts) 3
      (set_rate (sun50i.clocks sun50i.example_consts) 3 sun50i.pll_state device_ref.r_ccu
        clock_id.R_CCU_CLOCK_APB0 100000000).2.regs device_ref.r_ccu
          clock_id.R_CCU_CLOCK_APB0 = .ok 75000000 :=
  ⟨by decide,
    set_rate_get_rate_roundtrip.1 sun50i.example_consts 3 sun50i.pll_state
      device_ref.r_ccu clock_id.R_CCU_CLOCK_APB0 _ 100000000 75000000 rfl (by decide)
      (by decide)⟩

/-- C3: for every clock node carrying the CRITICAL flag whose
`enable_refcount` is 1, `disable` returns `CriticalDisableRejected`, leaves the
count at 1 and performs no register write (the write trace and the register
file are unchanged), so in particular no gate or reset write. -/
theorem disable_critical_rejected {D I : Type} [DecidableEq D] [DecidableEq I]
    (R : Registry D I) (st : State D I) (d : D) (i : I) (c : sunxi_ccu_clock D I)
    (hc : R d i = some c) (hcrit : CLK_CRITICAL ∈ c.info.flags) (hcount : st.refcount d i = 1) :
    (disable R st d i).1 = .error .CriticalDisableRejected ∧
    (disable R st d i).2.refcount d i = 1 ∧
    (disable R st d i).2.writes = st.writes ∧
    (disable R st d i).2.regs = st.regs := by
  have h : disable R st d i = (.error .CriticalDisableRejected, st) := by
    simp [disable, hc, hcrit, hcount]
  rw [h]
  exact ⟨rfl, hcount, rfl, rfl⟩

/-- C3 on `ahb0` of the sun50i tables: one `enable` from the all-zero state
brings its count to 1, and the `disable` that follows is rejected. -/
theorem disable_critical_rejected_witness :
    (enable (sun50i.clocks sun50i.example_consts) 2 (zero_state device_ref clock_id)
      device_ref.r_ccu clock_id.R_CCU_CLOCK_AHB0).2.refcount device_ref.r_ccu
        clock_id.R_CCU_CLOCK_AHB0 = 1 ∧
    (disable (sun50i.clocks sun50i.example_consts)
      (enable (sun50i.clocks sun50i.example_consts) 2 (zero_state device_ref clock_id)
        device_ref.r_ccu clock_id.R_CCU_CLOCK_AHB0).2 device_ref.r_ccu
          clock_id.R_CCU_CLOCK_AHB0).1 = .error .CriticalDisableRejected :=
  ⟨by decide,
    (disable_critical_rejected (sun50i.clocks sun50i.example_consts)
      (enable (sun50i.clocks sun50i.example_consts) 2 (zero_state device_ref clock_id)
        device_ref.r_ccu clock_id.R_CCU_CLOCK_AHB0).2 device_ref.r_ccu
          clock_id.R_CCU_CLOCK_AHB0 _ rfl (by decide) (by decide)).1⟩

namespace sun50i

/-- C5: the dependency graph of the sun50i tables (clock node to each listed
parent, device to the clock it consumes, to its interrupt controller and to
its bus) has no directed cycle and no infinite descending chain, and every
parent chain that starts at a clock node of the tables and cannot be extended
ends at a clock node with an empty parent table and the FIXED flag. -/
theorem registry_is_dag (P : sun50i_consts) :
    (∀ v, ¬ Relation.TransGen (edge P) v v) ∧
    WellFounded (fun w v => edge P v w) ∧
    (∀ d i c, clocks P d i = some c → ∀ w,
      Relation.ReflTransGen (parent_edge P) (vertex.clk d i) w → edges P w = [] →
      ∃ d' i' c', w = vertex.clk d' i' ∧ clocks P d' i' = some c' ∧ c'.parents = [] ∧
        CLK_FIXED ∈ c'.info.flags) := by
  refine ⟨?_, ?_, ?_⟩
  · intro v h
    exact Nat.lt_irrefl _ (rank_decreasing_trans P v v h)
  · exact Subrelation.wf (fun {w v} h => rank_decreasing P v w h)
      (InvImage.wf rank Nat.lt_wfRel.wf)
  · intro d i c hc w hpath
    have hdef : ∃ d' i' c', w = vertex.clk d' i' ∧ clocks P d' i' = some c' := by
      induction hpath with
      | refl => exact ⟨d, i, c, rfl, hc⟩
      | tail _ hstep ih => exact parent_edge_defined P _ _ ih hstep
    intro he
    obtain ⟨d', i', c', rfl, hc'⟩ := hdef
    obtain ⟨h1, h2⟩ := parentless_is_fixed P d' i' c' hc' he
    exact ⟨d', i', c', rfl, hc', h1, h2⟩

/-- C5 on the chain `r_i2c` clock, `apb0`, `ahb0`, `pll_periph0`: it ends, after
three steps, at a parentless fixed clock. -/
theorem registry_is_dag_witness :
    ∃ d' i' c', vertex.clk device_ref.ccu CCU_CLOCK_PLL_PERIPH0 = vertex.clk d' i' ∧
      clocks example_consts d' i' = some c' ∧ c'.parents = [] ∧ CLK_FIXED ∈ c'.info.flags :=
  (registry_is_dag example_consts).2.2 device_ref.r_ccu R_CCU_CLOCK_R_I2C _ rfl
    (vertex.clk device_ref.ccu CCU_CLOCK_PLL_PERIPH0)
    (Relation.ReflTransGen.tail
      (Relation.ReflTransGen.tail
        (Relation.ReflTransGen.single
          (show parent_edge example_consts (vertex.clk device_ref.r_ccu R_CCU_CLOCK_R_I2C)
              (vertex.clk device_ref.r_ccu R_CCU_CLOCK_APB0) from
            ⟨⟨_, _, rfl⟩, by decide⟩))
        (show parent_edge example_consts (vertex.clk device_ref.r_ccu R_CCU_CLOCK_APB0)
            (vertex.clk device_ref.r_ccu R_CCU_CLOCK_AHB0) from
          ⟨⟨_, _, rfl⟩, by decide⟩))
      (show parent_edge example_consts (vertex.clk device_ref.r_ccu R_CCU_CLOCK_AHB0)
          (vertex.clk device_ref.ccu CCU_CLOCK_PLL_PERIPH0) from
        ⟨⟨_, _, rfl⟩, by decide⟩))
    rfl

/-- C6 fails as stated: `r_cir_mod` has a mux of width 2, and the slots its mux
values 2 and 3 index are zero-filled (null) handles. -/
theorem r_cir_mod_null_parent_slots :
    (clocks example_consts device_ref.r_ccu R_CCU_CLOCK_R_CIR_MOD).map
      (fun c => (c.mux.width, c.parents.getD 2 none, c.parents.getD 3 none)) =
      some (2, none, none) := by
  decide

/-- C6, amended: for every node of the sun50i tables with a mux of width w,
the parents table has 2^w slots; a raw mux value indexes a null slot exactly
when the node is `r_cir_mod` and the value is 2 or 3; every other slot (all
four of `ahb0`, slots 0 and 1 of `r_cir_mod`) names a provider device and a
clock defined in that device. -/
theorem mux_parent_slots (P : sun50i_consts) (d : device_ref) (i : clock_id) (c : ccu_clock)
    (h : clocks P d i = some c) (hw : c.mux.width ≠ 0) :
    c.parents.length = 2 ^ c.mux.width ∧
    (∀ v, v < 2 ^ c.mux.width →
      (c.parents.getD v none = none ↔
        (d = device_ref.r_ccu ∧ i = R_CCU_CLOCK_R_CIR_MOD ∧ 2 ≤ v))) ∧
    (∀ v hd, c.parents.getD v none = some hd → (clocks P hd.dev hd.id).isSome = true) := by
  have h3 : ∀ v hd, c.parents.getD v none = some hd → (clocks P hd.dev hd.id).isSome = true :=
    fun v hd hv => (parent_handles_resolve P d i c h hd (mem_parent_handles c v hd hv)).2.2.2
  obtain ⟨hd, -, h⟩ := clocks_drvdata P d i c h
  rcases hd with rfl | rfl <;> cases i <;> cases h <;> first
    | exact absurd rfl hw
    | exact ⟨rfl, of_decide_eq_true rfl, h3⟩

/-- C6, amended, on `ahb0`: its four slots are all populated, slot 2 naming
`pll_periph0` of `ccu`. -/
theorem mux_parent_slots_witness :
    ∃ c, clocks example_consts device_ref.r_ccu R_CCU_CLOCK_AHB0 = some c ∧
      c.mux.width ≠ 0 ∧ c.parents.length = 2 ^ c.mux.width ∧
      (c.parents.getD 2 none = none ↔
        (device_ref.r_ccu = device_ref.r_ccu ∧ R_CCU_CLOCK_AHB0 = R_CCU_CLOCK_R_CIR_MOD ∧
          2 ≤ 2)) :=
  ⟨_, rfl, by decide,
    (mux_parent_slots example_consts device_ref.r_ccu R_CCU_CLOCK_AHB0 _ rfl (by decide)).1,
    (mux_parent_slots example_consts device_ref.r_ccu R_CCU_CLOCK_AHB0 _ rfl (by decide)).2.1
      2 (by decide)⟩

/-- C7 fails as stated: the `msgbox` clock of `ccu` carries the FIXED flag and
declares no rate, so it has no defined non-zero fixed rate; this does not depend
on the platform constants, which only enter its gate and reset members. -/
theorem msgbox_fixed_without_rate :
    (clocks example_consts device_ref.ccu CCU_CLOCK_MSGBOX).map
      (fun c => (c.info.flags, c.info.fixed_rate)) = some ([CLK_FIXED], 0) := by
  decide

/-- C7, amended: of the nodes of the sun50i tables that carry the FIXED flag,
`pll_periph0`, `osc24m`, `osc32k` and `osc16m` have neither gate nor reset and
a non-zero fixed rate; the other two, `msgbox` and `pio` of `ccu`, have no
rate, and their gate and reset members are the platform constants
`CCU_GATE_MSGBOX`, `CCU_RESET_MSGBOX`, `CCU_GATE_PIO`, `CCU_RESET_PIO`. -/
theorem fixed_flag_nodes (P : sun50i_consts) (d : device_ref) (i : clock_id) (c : ccu_clock)
    (h : clocks P d i = some c) (hf : CLK_FIXED ∈ c.info.flags) :
    (c.gate = 0 ∧ c.reset = 0 ∧ c.info.fixed_rate ≠ 0 ∧
      (d, i) ∈ [(device_ref.ccu, CCU_CLOCK_PLL_PERIPH0), (device_ref.r_ccu, R_CCU_CLOCK_OSC24M),
        (device_ref.r_ccu, R_CCU_CLOCK_OSC32K), (device_ref.r_ccu, R_CCU_CLOCK_OSC16M)]) ∨
    (d = device_ref.ccu ∧ i = CCU_CLOCK_MSGBOX ∧ c.info.fixed_rate = 0 ∧
      c.gate = P.CCU_GATE_MSGBOX ∧ c.reset = P.CCU_RESET_MSGBOX) ∨
    (d = device_ref.ccu ∧ i = CCU_CLOCK_PIO ∧ c.info.fixed_rate = 0 ∧
      c.gate = P.CCU_GATE_PIO ∧ c.reset = P.CCU_RESET_PIO) := by
  obtain ⟨hd, -, h⟩ := clocks_drvdata P d i c h
  rcases hd with rfl | rfl <;> cases i <;> cases h <;> first
    | exact Or.inl ⟨rfl, rfl, of_decide_eq_true rfl, of_decide_eq_true rfl⟩
    | exact Or.inr (Or.inl ⟨rfl, rfl, rfl, rfl, rfl⟩)
    | exact Or.inr (Or.inr ⟨rfl, rfl, rfl, rfl, rfl⟩)
    | exact absurd hf (of_decide_eq_true rfl)

/-- C7, amended, on `osc24m`: FIXED, no gate, no reset, 24,000,000 Hz. -/
theorem fixed_flag_nodes_witness :
    ∃ c, clocks example_consts device_ref.r_ccu R_CCU_CLOCK_OSC24M = some c ∧
      CLK_FIXED ∈ c.info.flags ∧ c.info.fixed_rate = 24000000 ∧
      ((c.gate = 0 ∧ c.reset = 0 ∧ c.info.fixed_rate ≠ 0 ∧
        (device_ref.r_ccu, R_CCU_CLOCK_OSC24M) ∈
          [(device_ref.ccu, CCU_CLOCK_PLL_PERIPH0), (device_ref.r_ccu, R_CCU_CLOCK_OSC24M),
            (device_ref.r_ccu, R_CCU_CLOCK_OSC32K), (device_ref.r_ccu, R_CCU_CLOCK_OSC16M)]) ∨
      (device_ref.r_ccu = device_ref.ccu ∧ R_CCU_CLOCK_OSC24M = CCU_CLOCK_MSGBOX ∧
        c.info.fixed_rate = 0 ∧
        c.gate = example_consts.CCU_GATE_MSGBOX ∧ c.reset = example_consts.CCU_RESET_MSGBOX) ∨
      (device_ref.r_ccu = device_ref.ccu ∧ R_CCU_CLOCK_OSC24M = CCU_CLOCK_PIO ∧
        c.info.fixed_rate = 0 ∧
        c.gate = example_consts.CCU_GATE_PIO ∧ c.reset = example_consts.CCU_RESET_PIO)) :=
  ⟨_, rfl, by decide, rfl,
    fixed_flag_nodes example_consts device_ref.r_ccu R_CCU_CLOCK_OSC24M _ rfl (by decide)⟩

/-- C8: every bitfield declared in the sun50i tables (the mux, m and p field of
each node and the `vdiv` field of each parent) satisfies
offset + width ≤ 32, so `extract` yields the same value on a word and on its
low 32 bits: no bit beyond the register word is read. -/
theorem registry_bitfields_in_word (P : sun50i_consts) (d : device_ref) (i : clock_id)
    (c : ccu_clock) (h : clocks P d i = some c) :
    ∀ f ∈ all_bitfields c, f.offset + f.width ≤ 32 ∧
      ∀ word, Bitfield.extract (word % 2 ^ 32) f = Bitfield.extract word f := by
  have hb : ∀ f ∈ all_bitfields c, f.offset + f.width ≤ 32 := by
    obtain ⟨hd, -, h⟩ := clocks_drvdata P d i c h
    rcases hd with rfl | rfl <;> cases i <;> cases h <;> exact of_decide_eq_true rfl
  intro f hf
  exact ⟨hb f hf, fun word => Bitfield.extract_low word f 32 (hb f hf)⟩

/-- C8 on the `vdiv` field of the `pll_periph0` parent of `ahb0`, bits 8 to
12. -/
theorem registry_bitfields_in_word_witness :
    (BITFIELD 8 5).offset + (BITFIELD 8 5).width ≤ 32 ∧
      ∀ word, Bitfield.extract (word % 2 ^ 32) (BITFIELD 8 5) =
        Bitfield.extract word (BITFIELD 8 5) :=
  registry_bitfields_in_word example_consts device_ref.r_ccu R_CCU_CLOCK_AHB0 _ rfl
    (BITFIELD 8 5) (by decide)

/-- C9: in the sun50i tables every device either has no clock reference or
refers to a clock index defined in the table of `ccu` or `r_ccu`, both bound to
the sunxi CCU driver; every non-null parent handle of every clock node does the
same; and every `irqdev` is `r_intc`, which is bound to the interrupt
controller driver.  So the lookup of each stored reference succeeds. -/
theorem registry_references_resolve (P : sun50i_consts) :
    (∀ x : device_ref,
      ((deref x).clockdev = none ∧ (deref x).clock = none) ∨
      ∃ d i, (deref x).clockdev = some d ∧ (deref x).clock = some i ∧
        (d = device_ref.ccu ∨ d = device_ref.r_ccu) ∧ (deref d).drv = sunxi_ccu_driver ∧
        (drvdata P d i).isSome = true ∧ (clocks P d i).isSome = true) ∧
    (∀ d i c, clocks P d i = some c → ∀ h ∈ parent_handles c,
      (h.dev = device_ref.ccu ∨ h.dev = device_ref.r_ccu) ∧
        (deref h.dev).drv = sunxi_ccu_driver ∧
        (drvdata P h.dev h.id).isSome = true ∧ (clocks P h.dev h.id).isSome = true) ∧
    (∀ x y, (deref x).irqdev = some y →
      y = device_ref.r_intc ∧ (deref y).drv = sun4i_intc_driver) := by
  refine ⟨?_, ?_, ?_⟩
  · intro x
    cases x
    · exact Or.inl ⟨rfl, rfl⟩
    · exact Or.inr ⟨_, _, rfl, rfl, Or.inl rfl, rfl, rfl, rfl⟩
    · exact Or.inr ⟨_, _, rfl, rfl, Or.inl rfl, rfl, rfl, rfl⟩
    · exact Or.inl ⟨rfl, rfl⟩
    · exact Or.inr ⟨_, _, rfl, rfl, Or.inr rfl, rfl, rfl, rfl⟩
    · exact Or.inl ⟨rfl, rfl⟩
    · exact Or.inr ⟨_, _, rfl, rfl, Or.inr rfl, rfl, rfl, rfl⟩
    · exact Or.inr ⟨_, _, rfl, rfl, Or.inr rfl, rfl, rfl, rfl⟩
    · exact Or.inr ⟨_, _, rfl, rfl, Or.inr rfl, rfl, rfl, rfl⟩
  · intro d i c h
    exact parent_handles_resolve P d i c h
  · intro x y h
    cases x <;> cases h <;> exact ⟨rfl, rfl⟩

/-- C9 on `r_i2c`: its `irqdev` is `r_intc`, bound to the interrupt controller
driver. -/
theorem registry_references_resolve_witness :
    (deref device_ref.r_i2c).irqdev = some device_ref.r_intc ∧
      (deref device_ref.r_intc).drv = sun4i_intc_driver :=
  ⟨rfl, ((registry_references_resolve example_consts).2.2 device_ref.r_i2c device_ref.r_intc
    rfl).2⟩

/-- C10: for every clock node of the sun50i tables the bit ranges of its mux,
m and p fields, of the `vdiv` field of each parent and of its gate bit, when
that bit lies in the register word at `reg`, are pairwise disjoint; hence
inserting a value that fits into any one of them leaves the value extracted
from each of the others unchanged. -/
theorem control_ranges_disjoint (P : sun50i_consts) (d : device_ref) (i : clock_id)
    (c : ccu_clock) (h : clocks P d i = some c) :
    List.Pairwise Bitfield.disjoint (control_ranges c) ∧
    ∀ (a b : Fin (control_ranges c).length), a ≠ b → ∀ word value,
      value < 2 ^ ((control_ranges c).get a).width →
        Bitfield.extract (Bitfield.insert word ((control_ranges c).get a) value)
          ((control_ranges c).get b) = Bitfield.extract word ((control_ranges c).get b) := by
  have hp : List.Pairwise Bitfield.disjoint (control_ranges c) := by
    apply control_ranges_pairwise
    · obtain ⟨hd, -, h⟩ := clocks_drvdata P d i c h
      rcases hd with rfl | rfl <;> cases i <;> cases h <;> exact of_decide_eq_true rfl
    · obtain ⟨hd, -, h⟩ := clocks_drvdata P d i c h
      rcases hd with rfl | rfl <;> cases i <;> cases h <;> first
        | exact Or.inl rfl
        | exact Or.inr (Or.inl (of_decide_eq_true rfl))
        | exact Or.inr (Or.inr ⟨31, bitmap_bit_index _ 31 (by decide), of_decide_eq_true rfl⟩)
  exact ⟨hp, fun a b hab word value hv => pairwise_disjoint_frame _ hp a b hab word value hv⟩

/-- C10 on `r_cir_mod`: its ranges are the mux (bits 24..25), m (bits 0..3),
p (bits 16..17), two absent `vdiv` fields and the gate bit 31, pairwise
disjoint. -/
theorem control_ranges_disjoint_witness :
    ∃ c, clocks example_consts device_ref.r_ccu R_CCU_CLOCK_R_CIR_MOD = some c ∧
      control_ranges c =
        [BITFIELD 24 2, BITFIELD 0 4, BITFIELD 16 2, BITFIELD_ZERO, BITFIELD_ZERO, ⟨31, 1⟩] ∧
      List.Pairwise Bitfield.disjoint (control_ranges c) :=
  ⟨_, rfl, by decide,
    (control_ranges_disjoint example_consts device_ref.r_ccu R_CCU_CLOCK_R_CIR_MOD _ rfl).1⟩

end sun50i

end Crust
